import Mathlib

/-!
Verification of the bet365 scorers extractor (`src/app.py`).

The core of the program is the pure function `parse_bet365_scorers`
together with the module-level post-processing that synthesises the
`LastOdds` and `SelectionOdds` columns.  We embed that pipeline
shallowly: lines are lists of characters, odds are exact rationals
(the Python code stores them as floats, but every value handled by the
claims is an exact decimal), and the two `ValueError`s become the two
`Except.error` messages of the embedding.

Notes on fidelity:
  * Python `str.strip` removes Unicode whitespace; the inputs at stake
    only ever contain ASCII whitespace, which `isPySpace` covers.
  * Python `str.lower` lowercases Unicode, but every header token the
    code compares against is pure ASCII, and lowering a non-ASCII
    character never produces an ASCII one, so ASCII lowering
    (`Char.toLower`) decides exactly the same equalities.
  * Python's `\d` matches Unicode digits; `Char.isDigit` covers the
    ASCII digits, which is what the pasted bet365 text contains.
-/

namespace Bet365

/-- A line of text, modelled as a list of characters. -/
abbrev Line := List Char

/-- Characters of a string literal. -/
def strL (s : String) : Line := s.data

/-- Whitespace characters removed by Python `str.strip`. -/
def isPySpace (c : Char) : Bool :=
  c == ' ' || c == '\t' || c == '\n' || c == '\r' || c == '\u000B' || c == '\u000C'

/-- Python `str.strip`: drop whitespace from both ends. -/
def trimL (l : Line) : Line :=
  ((l.dropWhile isPySpace).reverse.dropWhile isPySpace).reverse

/-- Python `str.lower` restricted to the ASCII range (see module notes). -/
def lowerL (l : Line) : Line := l.map Char.toLower

/-- The substitution `re.sub(r"\r\n?", "\n", t)` of `_norm`. -/
def replaceCR : Line → Line
  | [] => []
  | '\r' :: '\n' :: rest => '\n' :: replaceCR rest
  | '\r' :: rest => '\n' :: replaceCR rest
  | c :: rest => c :: replaceCR rest

/-- The substitution `re.sub(r"\n{2,}", "\n", t)` of `_norm`: collapse
runs of two or more newlines into one. -/
def collapseNL : Line → Line
  | [] => []
  | [c] => [c]
  | c :: d :: rest =>
      if c == '\n' && d == '\n' then collapseNL (d :: rest)
      else c :: collapseNL (d :: rest)

/-- Python `t.split("\n")`. -/
def splitNL : Line → List Line
  | [] => [[]]
  | '\n' :: rest => [] :: splitNL rest
  | c :: rest =>
      match splitNL rest with
      | l :: ls => (c :: l) :: ls
      | [] => [[c]]

/-- The normalizer `_norm` of `app.py`: normalise line endings, collapse
blank runs, split into lines, strip each line, drop empty lines. -/
def _norm (raw : Line) : List Line :=
  ((splitNL (collapseNL (replaceCR raw))).map trimL).filter (fun l => !l.isEmpty)

/-- Index of the first element satisfying `p`, or `none`. -/
def firstMatch (p : Line → Bool) : List Line → Option Nat
  | [] => none
  | ln :: rest => if p ln then some 0 else (firstMatch p rest).map (· + 1)

/-- The per-line test of `_idx`: `ln.strip().lower() == token.strip().lower()`
(entire-line, case-insensitive match). -/
def matchTok (ln token : Line) : Bool := lowerL (trimL ln) == lowerL (trimL token)

/-- The header locator `_idx` of `app.py`: index of the first line whose
trimmed lower-cased content equals the token, and `-1` when absent. -/
def _idx (lines : List Line) (token : Line) : Int :=
  match firstMatch (fun ln => matchTok ln token) lines with
  | some i => (i : Int)
  | none => -1

/-- The polymorphic locator `_find_any_index` of `app.py`: try the
candidate tokens in order and return the first hit, `(-1, "")` if none. -/
def _find_any_index (lines : List Line) : List Line → Int × Line
  | [] => (-1, [])
  | tok :: rest =>
      let i := _idx lines tok
      if i != -1 then (i, tok) else _find_any_index lines rest

/-- The scorer-header variants `_SCORER_HEADERS` of `app.py`. -/
def _SCORER_HEADERS : List Line :=
  [strL "Tryscorers", strL "Goalscorers", strL "Goal Scorers"]

/-- Python slice `l[a:b]` for non-negative bounds, as used by the
collectors (slicing clamps and never raises). -/
def pyslice (l : List α) (a b : Nat) : List α := (l.take b).drop a

/-- Longest digit prefix of a line and the remainder: the greedy `\d+`
step of the numeric regexes in `app.py`. -/
def takeDigits (l : Line) : Line × Line :=
  (l.takeWhile Char.isDigit, l.dropWhile Char.isDigit)

/-- Full match of the pattern `\d+(\.\d+)?` (used both by the
pure-number skip of `_collect_names` and by `_collect_odds`), returning
the integer and fractional digit groups on success. -/
def numMatch (l : Line) : Option (Line × Line) :=
  let (d, r) := takeDigits l
  if d.isEmpty then none
  else
    match r with
    | [] => some (d, [])
    | c :: r2 =>
        if c = '.' then
          let (f, r3) := takeDigits r2
          if f.isEmpty then none
          else if r3.isEmpty then some (d, f) else none
        else none

/-- Value of a digit group, most significant digit first. -/
def digitsToNat (ds : Line) : Nat :=
  ds.foldl (fun n c => 10 * n + (c.toNat - 48)) 0

/-- Numeric value of a matched numeral `d.f`, as an exact rational: the
embedding of Python `float(ln)` on lines matching the pattern.  The
value is `intPart + fracPart / 10 ^ fracLen`, written as a single
`mkRat` so that it evaluates by kernel reduction; `floatOf_eq` below
recovers the textbook form. -/
def floatOf (df : Line × Line) : ℚ :=
  mkRat (digitsToNat df.1 * 10 ^ df.2.length + digitsToNat df.2) (10 ^ df.2.length)

/-- Parsing one line of an odds region: the `re.match(r"^\d+(\.\d+)?$", ln)`
test of `_collect_odds` followed by `float(ln)`. -/
def parseOdds (l : Line) : Option ℚ := (numMatch l).map floatOf

/-- The loop body of `_collect_odds` over an already-sliced region. -/
def collectOddsList : List Line → List ℚ
  | [] => []
  | ln :: rest =>
      match numMatch ln with
      | some df => floatOf df :: collectOddsList rest
      | none => collectOddsList rest

/-- The odds collector `_collect_odds` of `app.py`. -/
def _collect_odds (lines : List Line) (start stop : Nat) : List ℚ :=
  collectOddsList (pyslice lines (start + 1) stop)

/-- The noise-token set `skip_exact` of `_collect_names`. -/
def skip_exact : List Line :=
  [strL "BB", strL "ET Extra Chance", strL "Show less", strL "View by",
   strL "Market", strL "Player", strL "New", strL "Bet", strL "Builder"]

/-- Decidable range test on a character's code point. -/
def inRange (c : Char) (lo hi : Nat) : Bool :=
  decide (lo ≤ c.toNat) && decide (c.toNat ≤ hi)

/-- One character of the class in `_NAME_ALLOW`:
`[A-Za-zÀ-ÖØ-öø-ÿ'’.\- ]`. -/
def nameAllowChar (c : Char) : Bool :=
  inRange c 65 90 || inRange c 97 122 ||
  inRange c 0xC0 0xD6 || inRange c 0xD8 0xF6 || inRange c 0xF8 0xFF ||
  c == '\'' || c == '’' || c == '.' || c == '-' || c == ' '

/-- The regex `_NAME_ALLOW = ^[A-Za-zÀ-ÖØ-öø-ÿ'’.\- ]{2,}$` of `app.py`
(with `$` anchoring, `.match` is a full match on stripped lines). -/
def _NAME_ALLOW (l : Line) : Bool :=
  decide (2 ≤ l.length) && l.all nameAllowChar

/-- The loop body of `_collect_names`, as the filter it implements:
skip noise tokens, skip pure numbers, keep the "no scorer" sentinels,
otherwise keep exactly the lines matching `_NAME_ALLOW`. -/
def nameKeep (ln : Line) : Bool :=
  if skip_exact.contains ln then false
  else if (numMatch ln).isSome then false
  else if ln == strL "No Tryscorer" || ln == strL "No Goalscorer" then true
  else _NAME_ALLOW ln

/-- The name collector `_collect_names` of `app.py`. -/
def _collect_names (lines : List Line) (start stop : Nat) : List Line :=
  (pyslice lines (start + 1) stop).filter nameKeep

/-- The first error message of `parse_bet365_scorers`. -/
def missingHeadersMsg : Line :=
  strL "Could not find required headers: (Tryscorers|Goalscorers) / First / Last / Anytime"

/-- The second error message of `parse_bet365_scorers`. -/
def noRowsMsg : Line :=
  strL "No rows parsed. Make sure you copied the whole market incl. First/Last/Anytime."

/-- A row of the DataFrame built inside `parse_bet365_scorers`
(columns SelectionName, FirstOdds, AnyOdds). -/
structure Row3 where
  SelectionName : Line
  FirstOdds : ℚ
  AnyOdds : ℚ
deriving DecidableEq

/-- A row of the final five-column table produced by the module-level
post-processing of `app.py` (lines 114-117). -/
structure Row5 where
  SelectionName : Line
  SelectionOdds : Line
  FirstOdds : ℚ
  LastOdds : ℚ
  AnyOdds : ℚ
deriving DecidableEq

deriving instance DecidableEq for Except

/-- Index of the scorer header (`scorers_i` in `parse_bet365_scorers`). -/
def scorersIdx (lines : List Line) : Int := (_find_any_index lines _SCORER_HEADERS).1

/-- Index of the "First" header (`first_i`). -/
def firstIdx (lines : List Line) : Int := _idx lines (strL "First")

/-- Index of the "Last" header (`last_i`). -/
def lastIdx (lines : List Line) : Int := _idx lines (strL "Last")

/-- Index of the "Anytime" header (`any_i`). -/
def anyIdx (lines : List Line) : Int := _idx lines (strL "Anytime")

/-- The guard value `min(scorers_i, first_i, last_i, any_i)`. -/
def minIdx (lines : List Line) : Int :=
  min (min (scorersIdx lines) (firstIdx lines)) (min (lastIdx lines) (anyIdx lines))

/-- The list `names` of `parse_bet365_scorers`. -/
def namesOf (lines : List Line) : List Line :=
  _collect_names lines (scorersIdx lines).toNat (firstIdx lines).toNat

/-- The list `first` of `parse_bet365_scorers`. -/
def firstOf (lines : List Line) : List ℚ :=
  _collect_odds lines (firstIdx lines).toNat (lastIdx lines).toNat

/-- The alignment-only list `_last` of `parse_bet365_scorers`. -/
def lastOf (lines : List Line) : List ℚ :=
  _collect_odds lines (lastIdx lines).toNat (anyIdx lines).toNat

/-- The list `anyt` of `parse_bet365_scorers`. -/
def anytOf (lines : List Line) : List ℚ :=
  _collect_odds lines (anyIdx lines).toNat lines.length

/-- The value `m = min(len(names), len(first), len(_last), len(anyt))`. -/
def rowCount (lines : List Line) : Nat :=
  min (min (namesOf lines).length (firstOf lines).length)
      (min (lastOf lines).length (anytOf lines).length)

/-- Positional zip of the three truncated columns into DataFrame rows. -/
def buildRows : List Line → List ℚ → List ℚ → List Row3
  | n :: ns, f :: fs, a :: as2 => ⟨n, f, a⟩ :: buildRows ns fs as2
  | _, _, _ => []

/-- The parser `parse_bet365_scorers` of `app.py`: locate the four
headers (raising the missing-headers error when `min(...) == -1`),
collect the four lists, raise the no-rows error when the minimum length
is zero, and otherwise zip the truncated columns. -/
def parse_bet365_scorers (raw : Line) : Except Line (List Row3) :=
  let lines := _norm raw
  if minIdx lines = -1 then .error missingHeadersMsg
  else if rowCount lines = 0 then .error noRowsMsg
  else .ok (buildRows ((namesOf lines).take (rowCount lines))
                      ((firstOf lines).take (rowCount lines))
                      ((anytOf lines).take (rowCount lines)))

/-- The module-level post-processing of `app.py` (lines 114-117):
`LastOdds` mirrors `FirstOdds` and `SelectionOdds` is blank. -/
def postRow (r : Row3) : Row5 :=
  ⟨r.SelectionName, [], r.FirstOdds, r.FirstOdds, r.AnyOdds⟩

/-- The full pipeline exposed to the user: `parse_bet365_scorers`
followed by the `LastOdds`/`SelectionOdds` synthesis. -/
def parseScorers (raw : Line) : Except Line (List Row5) :=
  match parse_bet365_scorers raw with
  | .error e => .error e
  | .ok df => .ok (df.map postRow)

/-- Does `hay` start with `needle`? -/
def startsWithL : Line → Line → Bool
  | _, [] => true
  | [], _ :: _ => false
  | c :: cs, d :: ds => c == d && startsWithL cs ds

/-- Does `needle` occur as a contiguous substring of `hay`?  Used to
state what an error message mentions. -/
def containsSub : Line → Line → Bool
  | [], needle => needle.isEmpty
  | c :: t, needle => startsWithL (c :: t) needle || containsSub t needle

/-- Modelled from the spec: a "bare numeral" in the spec's words, an
integer or a decimal made of digits with a single optional decimal
point, no sign and no thousands separators.  Stated independently of
`numMatch` so that the code's regex can be compared against it. -/
def specBareNumeral (l : Line) : Prop :=
  (l ≠ [] ∧ ∀ c ∈ l, c.isDigit = true) ∨
  (∃ a b : Line, l = a ++ '.' :: b ∧ a ≠ [] ∧ b ≠ [] ∧
    (∀ c ∈ a, c.isDigit = true) ∧ (∀ c ∈ b, c.isDigit = true))

/-! Helper lemmas about the embedding. -/

theorem firstMatch_eq_none_iff (p : Line → Bool) (ls : List Line) :
    firstMatch p ls = none ↔ ∀ ln ∈ ls, p ln = false := by
  induction ls with
  | nil => simp [firstMatch]
  | cons ln rest ih =>
      by_cases h : p ln
      · simp [firstMatch, h]
      · simp only [firstMatch, if_neg h, Option.map_eq_none', List.mem_cons]
        simp only [ih]
        constructor
        · intro hall x hx
          rcases hx with rfl | hx
          · exact Bool.eq_false_iff.mpr h
          · exact hall x hx
        · intro hall x hx
          exact hall x (Or.inr hx)

theorem firstMatch_eq_some_iff (p : Line → Bool) (ls : List Line) (i : Nat) :
    firstMatch p ls = some i ↔
      ((ls.take i).all (fun ln => !p ln) ∧ ∃ ln, ls[i]? = some ln ∧ p ln = true) := by
  induction ls generalizing i with
  | nil => simp [firstMatch]
  | cons hd rest ih =>
      by_cases h : p hd
      · cases i with
        | zero => simp [firstMatch, h]
        | succ j =>
            simp only [firstMatch, if_pos h]
            constructor
            · intro hcontra; cases hcontra
            · rintro ⟨hall, -⟩
              simp only [List.take_succ_cons, List.all_cons, Bool.and_eq_true,
                Bool.not_eq_true'] at hall
              exact absurd hall.1 (by simp [h])
      · cases i with
        | zero =>
            simp only [firstMatch, if_neg h, List.take_zero, List.all_nil,
              List.getElem?_cons_zero, Option.some.injEq]
            constructor
            · intro hcontra
              rcases Option.map_eq_some'.mp hcontra with ⟨j, hj1, hj2⟩
              omega
            · rintro ⟨-, ln, rfl, hln⟩
              exact absurd hln (by simp [h])
        | succ j =>
            simp only [firstMatch, if_neg h, List.take_succ_cons, List.all_cons,
              Bool.and_eq_true, Bool.not_eq_true', List.getElem?_cons_succ]
            constructor
            · intro hmap
              rcases Option.map_eq_some'.mp hmap with ⟨k, hk, hkj⟩
              have hkj2 : k = j := by omega
              rw [hkj2] at hk
              rcases (ih j).mp hk with ⟨hall, hex⟩
              exact ⟨⟨Bool.eq_false_iff.mpr h, hall⟩, hex⟩
            · rintro ⟨⟨-, hall⟩, hex⟩
              have := (ih j).mpr ⟨hall, hex⟩
              simp [this]

theorem idx_ge (lines : List Line) (token : Line) : -1 ≤ _idx lines token := by
  unfold _idx
  cases h : firstMatch (fun ln => matchTok ln token) lines with
  | none => simp
  | some i => simp; omega

theorem find_any_fst_ge (lines : List Line) (toks : List Line) :
    -1 ≤ (_find_any_index lines toks).1 := by
  induction toks with
  | nil => simp [_find_any_index]
  | cons tok rest ih =>
      simp only [_find_any_index]
      by_cases h : _idx lines tok != -1
      · simpa [h] using idx_ge lines tok
      · simpa [h] using ih

theorem scorersIdx_ge (lines : List Line) : -1 ≤ scorersIdx lines :=
  find_any_fst_ge lines _SCORER_HEADERS

theorem minIdx_ne_neg_one (lines : List Line) (h : minIdx lines ≠ -1) :
    0 ≤ scorersIdx lines ∧ 0 ≤ firstIdx lines ∧ 0 ≤ lastIdx lines ∧ 0 ≤ anyIdx lines := by
  have h1 := scorersIdx_ge lines
  have h2 := idx_ge lines (strL "First")
  have h3 := idx_ge lines (strL "Last")
  have h4 := idx_ge lines (strL "Anytime")
  unfold minIdx at h
  unfold firstIdx lastIdx anyIdx
  unfold firstIdx lastIdx anyIdx at h
  omega

theorem minIdx_eq_neg_one (lines : List Line)
    (h : scorersIdx lines = -1 ∨ firstIdx lines = -1 ∨
         lastIdx lines = -1 ∨ anyIdx lines = -1) :
    minIdx lines = -1 := by
  have h1 := scorersIdx_ge lines
  have h2 := idx_ge lines (strL "First")
  have h3 := idx_ge lines (strL "Last")
  have h4 := idx_ge lines (strL "Anytime")
  unfold minIdx
  unfold firstIdx lastIdx anyIdx
  unfold firstIdx lastIdx anyIdx at h
  omega

theorem buildRows_length (ns : List Line) (fs as2 : List ℚ) :
    (buildRows ns fs as2).length = min (min ns.length fs.length) as2.length := by
  induction ns generalizing fs as2 with
  | nil => simp [buildRows]
  | cons n ns ih =>
      cases fs with
      | nil => simp [buildRows]
      | cons f fs =>
          cases as2 with
          | nil => simp [buildRows]
          | cons a as2 =>
              simp only [buildRows, List.length_cons, ih]
              omega

theorem buildRows_getElem? (ns : List Line) (fs as2 : List ℚ) (i : Nat)
    (h1 : i < ns.length) (h2 : i < fs.length) (h3 : i < as2.length) :
    ∃ n f a, ns[i]? = some n ∧ fs[i]? = some f ∧ as2[i]? = some a ∧
      (buildRows ns fs as2)[i]? = some ⟨n, f, a⟩ := by
  induction ns generalizing fs as2 i with
  | nil => simp at h1
  | cons hd ns ih =>
      cases fs with
      | nil => simp at h2
      | cons f fs =>
          cases as2 with
          | nil => simp at h3
          | cons a as2 =>
              cases i with
              | zero => exact ⟨hd, f, a, by simp, by simp, by simp, by simp [buildRows]⟩
              | succ j =>
                  simp only [List.length_cons] at h1 h2 h3
                  rcases ih fs as2 j (by omega) (by omega) (by omega) with
                    ⟨n', f', a', hn, hf, ha, hb⟩
                  exact ⟨n', f', a', by simpa using hn, by simpa using hf,
                    by simpa using ha, by simpa [buildRows] using hb⟩

theorem mem_buildRows_name (ns : List Line) (fs as2 : List ℚ) (r : Row3)
    (h : r ∈ buildRows ns fs as2) : r.SelectionName ∈ ns := by
  induction ns generalizing fs as2 with
  | nil => simp [buildRows] at h
  | cons n ns ih =>
      cases fs with
      | nil => simp [buildRows] at h
      | cons f fs =>
          cases as2 with
          | nil => simp [buildRows] at h
          | cons a as2 =>
              simp only [buildRows, List.mem_cons] at h
              rcases h with rfl | h
              · exact List.mem_cons_self _ _
              · exact List.mem_cons_of_mem _ (ih fs as2 h)

theorem pyslice_eq_nil (l : List α) (a b : Nat) (h : b ≤ a) :
    pyslice l a b = [] := by
  unfold pyslice
  apply List.eq_nil_of_length_eq_zero
  simp only [List.length_drop, List.length_take]
  omega

theorem collectOddsList_eq_filterMap (ls : List Line) :
    collectOddsList ls = ls.filterMap parseOdds := by
  induction ls with
  | nil => rfl
  | cons ln rest ih =>
      cases h : numMatch ln with
      | none => simp [collectOddsList, h, List.filterMap_cons, parseOdds, ih]
      | some df => simp [collectOddsList, h, List.filterMap_cons, parseOdds, ih]

/-- The value of a matched numeral is its integer part plus its
fractional part scaled by the number of fractional digits. -/
theorem floatOf_eq (d f : Line) :
    floatOf (d, f) = (digitsToNat d : ℚ) + (digitsToNat f : ℚ) / (10 : ℚ) ^ f.length := by
  unfold floatOf
  rw [Rat.mkRat_eq_divInt, Rat.divInt_eq_div]
  push_cast
  field_simp

theorem numMatch_int (d : Line) (hne : d ≠ [])
    (hdig : ∀ c ∈ d, c.isDigit = true) : numMatch d = some (d, []) := by
  unfold numMatch takeDigits
  rw [List.takeWhile_eq_self_iff.mpr hdig, List.dropWhile_eq_nil_iff.mpr hdig]
  simp [List.isEmpty_iff, hne]

theorem numMatch_dec (d f : Line) (hd : d ≠ []) (hf : f ≠ [])
    (hdig : ∀ c ∈ d, c.isDigit = true) (hfig : ∀ c ∈ f, c.isDigit = true) :
    numMatch (d ++ '.' :: f) = some (d, f) := by
  unfold numMatch takeDigits
  rw [List.takeWhile_append_of_pos hdig, List.dropWhile_append_of_pos hdig]
  have hdot : ('.' : Char).isDigit = false := by decide
  rw [List.takeWhile_cons, List.dropWhile_cons]
  simp only [hdot, if_neg Bool.false_ne_true, List.append_nil]
  rw [List.takeWhile_eq_self_iff.mpr hfig, List.dropWhile_eq_nil_iff.mpr hfig]
  simp [List.isEmpty_iff, hd, hf]

theorem parseOdds_int (d : Line) (hne : d ≠ [])
    (hdig : ∀ c ∈ d, c.isDigit = true) :
    parseOdds d = some (digitsToNat d : ℚ) := by
  rw [parseOdds, numMatch_int d hne hdig]
  simp [floatOf_eq, digitsToNat]

theorem parseOdds_dec (d f : Line) (hd : d ≠ []) (hf : f ≠ [])
    (hdig : ∀ c ∈ d, c.isDigit = true) (hfig : ∀ c ∈ f, c.isDigit = true) :
    parseOdds (d ++ '.' :: f) =
      some ((digitsToNat d : ℚ) + (digitsToNat f : ℚ) / (10 : ℚ) ^ f.length) := by
  rw [parseOdds, numMatch_dec d f hd hf hdig hfig]
  simp [floatOf_eq]

theorem numMatch_isSome_iff (l : Line) :
    (numMatch l).isSome = true ↔ specBareNumeral l := by
  constructor
  · intro hs
    simp only [numMatch, takeDigits] at hs
    have hl : l.takeWhile Char.isDigit ++ l.dropWhile Char.isDigit = l :=
      List.takeWhile_append_dropWhile ..
    have hddig : ∀ c ∈ l.takeWhile Char.isDigit, c.isDigit = true :=
      fun c hc => List.mem_takeWhile_imp hc
    by_cases hde : (l.takeWhile Char.isDigit).isEmpty
    · rw [if_pos hde] at hs
      cases hs
    · rw [if_neg hde] at hs
      have hdne : l.takeWhile Char.isDigit ≠ [] := by
        simpa [List.isEmpty_iff] using hde
      rcases hrc : l.dropWhile Char.isDigit with _ | ⟨c, r2⟩
      · rw [hrc] at hs hl
        rw [List.append_nil] at hl
        exact Or.inl ⟨hl ▸ hdne, hl ▸ hddig⟩
      · rw [hrc] at hs hl
        dsimp only at hs
        have hr2 : r2.takeWhile Char.isDigit ++ r2.dropWhile Char.isDigit = r2 :=
          List.takeWhile_append_dropWhile ..
        have hfdig : ∀ c ∈ r2.takeWhile Char.isDigit, c.isDigit = true :=
          fun c hc => List.mem_takeWhile_imp hc
        by_cases hcdot : c = '.'
        · subst hcdot
          rw [if_pos rfl] at hs
          by_cases hfe : (r2.takeWhile Char.isDigit).isEmpty
          · rw [if_pos hfe] at hs
            cases hs
          · rw [if_neg hfe] at hs
            by_cases hr3e : (r2.dropWhile Char.isDigit).isEmpty
            · refine Or.inr ⟨l.takeWhile Char.isDigit, r2.takeWhile Char.isDigit,
                ?_, hdne, by simpa [List.isEmpty_iff] using hfe, hddig, hfdig⟩
              rw [List.isEmpty_iff.mp hr3e, List.append_nil] at hr2
              rw [hr2]
              exact hl.symm
            · rw [if_neg hr3e] at hs
              cases hs
        · rw [if_neg hcdot] at hs
          cases hs
  · rintro (⟨hne, hdig⟩ | ⟨a, b, rfl, ha, hb, hadig, hbdig⟩)
    · rw [numMatch_int l hne hdig]
      rfl
    · rw [numMatch_dec a b ha hb hadig hbdig]
      rfl

theorem nameKeep_not_noise (ln : Line) (h : nameKeep ln = true) :
    skip_exact.contains ln = false ∧ (numMatch ln).isSome = false := by
  unfold nameKeep at h
  cases hc : skip_exact.contains ln
  · cases hm : (numMatch ln).isSome
    · exact ⟨rfl, rfl⟩
    · rw [hc, hm] at h
      simp at h
  · rw [hc] at h
    simp at h

theorem rowCount_le (lines : List Line) :
    rowCount lines ≤ (namesOf lines).length ∧ rowCount lines ≤ (firstOf lines).length ∧
    rowCount lines ≤ (lastOf lines).length ∧ rowCount lines ≤ (anytOf lines).length := by
  unfold rowCount
  omega

theorem parse_error_missing (raw : Line) (h : minIdx (_norm raw) = -1) :
    parse_bet365_scorers raw = .error missingHeadersMsg := by
  simp only [parse_bet365_scorers]
  rw [if_pos h]

theorem parse_error_noRows (raw : Line) (h1 : minIdx (_norm raw) ≠ -1)
    (h2 : rowCount (_norm raw) = 0) :
    parse_bet365_scorers raw = .error noRowsMsg := by
  simp only [parse_bet365_scorers]
  rw [if_neg h1, if_pos h2]

theorem parse_ok_shape (raw : Line) (h1 : minIdx (_norm raw) ≠ -1)
    (h2 : rowCount (_norm raw) ≠ 0) :
    parse_bet365_scorers raw = .ok (buildRows
      ((namesOf (_norm raw)).take (rowCount (_norm raw)))
      ((firstOf (_norm raw)).take (rowCount (_norm raw)))
      ((anytOf (_norm raw)).take (rowCount (_norm raw)))) := by
  simp only [parse_bet365_scorers]
  rw [if_neg h1, if_neg h2]

theorem parse_ok_inv (raw : Line) (rows3 : List Row3)
    (h : parse_bet365_scorers raw = .ok rows3) :
    minIdx (_norm raw) ≠ -1 ∧ rowCount (_norm raw) ≠ 0 ∧
    rows3 = buildRows ((namesOf (_norm raw)).take (rowCount (_norm raw)))
      ((firstOf (_norm raw)).take (rowCount (_norm raw)))
      ((anytOf (_norm raw)).take (rowCount (_norm raw))) := by
  by_cases h1 : minIdx (_norm raw) = -1
  · rw [parse_error_missing raw h1] at h
    cases h
  · by_cases h2 : rowCount (_norm raw) = 0
    · rw [parse_error_noRows raw h1 h2] at h
      cases h
    · rw [parse_ok_shape raw h1 h2] at h
      injection h with h
      exact ⟨h1, h2, h.symm⟩

theorem buildRows_take_length (lines : List Line) :
    (buildRows ((namesOf lines).take (rowCount lines))
               ((firstOf lines).take (rowCount lines))
               ((anytOf lines).take (rowCount lines))).length = rowCount lines := by
  rw [buildRows_length]
  simp only [List.length_take]
  unfold rowCount
  omega

theorem parseScorers_ok_inv (raw : Line) (rows : List Row5)
    (hok : parseScorers raw = .ok rows) :
    ∃ rows3, parse_bet365_scorers raw = .ok rows3 ∧ rows = rows3.map postRow := by
  unfold parseScorers at hok
  cases hp : parse_bet365_scorers raw with
  | error e =>
      rw [hp] at hok
      cases hok
  | ok rows3 =>
      rw [hp] at hok
      dsimp only at hok
      injection hok with h
      exact ⟨rows3, rfl, h.symm⟩

/-! Claim theorems. -/

/-- C2: every row of the table returned by `parseScorers` carries all
five fields, with `SelectionOdds` blank and `LastOdds` equal to
`FirstOdds`; the parsed Last-region values are never surfaced. -/
theorem C2_row_fields (raw : Line) (rows : List Row5)
    (hok : parseScorers raw = .ok rows) :
    ∀ r ∈ rows, r.SelectionOdds = [] ∧ r.LastOdds = r.FirstOdds := by
  rcases parseScorers_ok_inv raw rows hok with ⟨rows3, hp, hrows⟩
  subst hrows
  intro r hr
  rcases List.mem_map.mp hr with ⟨r3, hr3, rfl⟩
  exact ⟨rfl, rfl⟩

/-- Witness for C2 at a concrete successful parse and its one row. -/
theorem C2_witness :
    (⟨strL "Jones", [], (3 : ℚ), (3 : ℚ), mkRat 3 2⟩ : Row5).SelectionOdds = [] ∧
    (⟨strL "Jones", [], (3 : ℚ), (3 : ℚ), mkRat 3 2⟩ : Row5).LastOdds =
      (⟨strL "Jones", [], (3 : ℚ), (3 : ℚ), mkRat 3 2⟩ : Row5).FirstOdds :=
  C2_row_fields (strL "Goalscorers\nJones\nFirst\n3\nLast\n3\nAnytime\n1.5")
    [(⟨strL "Jones", [], (3 : ℚ), (3 : ℚ), mkRat 3 2⟩ : Row5)] (by decide)
    (⟨strL "Jones", [], (3 : ℚ), (3 : ℚ), mkRat 3 2⟩ : Row5) (by decide)

/-- C4: `parseScorers` either fails with one of exactly the two error
messages or returns a non-empty table; when the four markers are found
but the minimum list length is zero it fails with the No-Rows error. -/
theorem C4_two_errors_or_nonempty (raw : Line) :
    (parseScorers raw = .error missingHeadersMsg ∨
     parseScorers raw = .error noRowsMsg ∨
     ∃ rows, parseScorers raw = .ok rows ∧ rows ≠ []) ∧
    (minIdx (_norm raw) ≠ -1 → rowCount (_norm raw) = 0 →
       parseScorers raw = .error noRowsMsg) := by
  have herr2 : ∀ (h1 : minIdx (_norm raw) ≠ -1) (h2 : rowCount (_norm raw) = 0),
      parseScorers raw = .error noRowsMsg := by
    intro h1 h2
    unfold parseScorers
    rw [parse_error_noRows raw h1 h2]
  refine ⟨?_, herr2⟩
  by_cases h1 : minIdx (_norm raw) = -1
  · left
    unfold parseScorers
    rw [parse_error_missing raw h1]
  · by_cases h2 : rowCount (_norm raw) = 0
    · exact Or.inr (Or.inl (herr2 h1 h2))
    · refine Or.inr (Or.inr ⟨List.map postRow (buildRows
          ((namesOf (_norm raw)).take (rowCount (_norm raw)))
          ((firstOf (_norm raw)).take (rowCount (_norm raw)))
          ((anytOf (_norm raw)).take (rowCount (_norm raw)))), ?_, ?_⟩)
      · unfold parseScorers
        rw [parse_ok_shape raw h1 h2]
      · intro hnil
        have hlen := congrArg List.length hnil
        rw [List.length_map, buildRows_take_length] at hlen
        simp only [List.length_nil] at hlen
        exact h2 hlen

/-- Witness for C4: headers present but no data rows gives No-Rows. -/
theorem C4_witness :
    parseScorers (strL "Tryscorers\nFirst\nLast\nAnytime") = .error noRowsMsg :=
  (C4_two_errors_or_nonempty (strL "Tryscorers\nFirst\nLast\nAnytime")).2
    (by decide) (by decide)

/-- C8: the minimal example buffer yields exactly one row with
SelectionName "Smith", FirstOdds 2.5, LastOdds 2.5 and AnyOdds 1.9. -/
theorem C8_minimal_example :
    parseScorers (strL "Tryscorers\nSmith\nFirst\n2.5\nLast\n2.7\nAnytime\n1.9") =
      .ok [⟨strL "Smith", [], (2.5 : ℚ), (2.5 : ℚ), (1.9 : ℚ)⟩] := by
  rw [show (2.5 : ℚ) = mkRat 5 2 from by norm_num [Rat.mkRat_eq_divInt, Rat.divInt_eq_div],
      show (1.9 : ℚ) = mkRat 19 10 from by norm_num [Rat.mkRat_eq_divInt, Rat.divInt_eq_div]]
  decide

/-- C9: `parseScorers` is total with only the two declared error
outcomes, and when all four markers are present but not in the expected
order the parse fails with the No-Rows error (ordering itself is never
validated and no index error can occur, the out-of-order region slices
being empty). -/
theorem C9_total_out_of_order (raw : Line) :
    (parseScorers raw = .error missingHeadersMsg ∨
     parseScorers raw = .error noRowsMsg ∨
     ∃ rows, parseScorers raw = .ok rows) ∧
    (minIdx (_norm raw) ≠ -1 →
     ¬(scorersIdx (_norm raw) < firstIdx (_norm raw) ∧
       firstIdx (_norm raw) < lastIdx (_norm raw) ∧
       lastIdx (_norm raw) < anyIdx (_norm raw)) →
     parseScorers raw = .error noRowsMsg) := by
  constructor
  · by_cases h1 : minIdx (_norm raw) = -1
    · left
      unfold parseScorers
      rw [parse_error_missing raw h1]
    · by_cases h2 : rowCount (_norm raw) = 0
      · right; left
        unfold parseScorers
        rw [parse_error_noRows raw h1 h2]
      · right; right
        refine ⟨List.map postRow (buildRows
          ((namesOf (_norm raw)).take (rowCount (_norm raw)))
          ((firstOf (_norm raw)).take (rowCount (_norm raw)))
          ((anytOf (_norm raw)).take (rowCount (_norm raw)))), ?_⟩
        unfold parseScorers
        rw [parse_ok_shape raw h1 h2]
  · intro h1 hord
    rcases minIdx_ne_neg_one (_norm raw) h1 with ⟨hs0, hf0, hl0, ha0⟩
    have hcase : firstIdx (_norm raw) ≤ scorersIdx (_norm raw) ∨
        lastIdx (_norm raw) ≤ firstIdx (_norm raw) ∨
        anyIdx (_norm raw) ≤ lastIdx (_norm raw) := by omega
    have h2 : rowCount (_norm raw) = 0 := by
      rcases hcase with hc | hc | hc
      · have hnil : namesOf (_norm raw) = [] := by
          unfold namesOf _collect_names
          rw [pyslice_eq_nil _ _ _ (by omega)]
          rfl
        unfold rowCount
        rw [hnil]
        simp
      · have hnil : firstOf (_norm raw) = [] := by
          unfold firstOf _collect_odds
          rw [pyslice_eq_nil _ _ _ (by omega)]
          rfl
        unfold rowCount
        rw [hnil]
        simp
      · have hnil : lastOf (_norm raw) = [] := by
          unfold lastOf _collect_odds
          rw [pyslice_eq_nil _ _ _ (by omega)]
          rfl
        unfold rowCount
        rw [hnil]
        simp
    unfold parseScorers
    rw [parse_error_noRows raw h1 h2]

/-- Witness for C9: all four markers present with "Anytime" first gives
the No-Rows error rather than any other failure. -/
theorem C9_witness :
    parseScorers (strL "Anytime\nTryscorers\nSmith\nFirst\n2.5\nLast") =
      .error noRowsMsg :=
  (C9_total_out_of_order (strL "Anytime\nTryscorers\nSmith\nFirst\n2.5\nLast")).2
    (by decide) (by decide)

/-- C10: the name allow-filter requires no letter: the line "--" (only
hyphens, length 2) placed between the scorer header and "First" is kept
as a candidate name and appears as a SelectionName in the output. -/
theorem C10_no_letter_name :
    _NAME_ALLOW (strL "--") = true ∧
    (strL "--").all (fun c => !c.isAlpha) = true ∧
    namesOf (_norm (strL "Tryscorers\n--\nFirst\n2.5\nLast\n2.7\nAnytime\n1.9")) =
      [strL "--"] ∧
    parseScorers (strL "Tryscorers\n--\nFirst\n2.5\nLast\n2.7\nAnytime\n1.9") =
      .ok [⟨strL "--", [], mkRat 5 2, mkRat 5 2, mkRat 19 10⟩] := by
  decide

/-- C5: no noise-token line and no pure-numeric line ever appears as a
SelectionName; a "No Tryscorer"/"No Goalscorer" line strictly between
the scorer header and the "First" header is kept as a name; and the
collected names preserve input order (they form a sublist of the
region). -/
theorem C5_noise_and_sentinel :
    (∀ (raw : Line) (rows : List Row5), parseScorers raw = .ok rows →
       ∀ r ∈ rows, skip_exact.contains r.SelectionName = false ∧
         (numMatch r.SelectionName).isSome = false) ∧
    (∀ lines : List Line,
       ∀ ln ∈ pyslice lines ((scorersIdx lines).toNat + 1) (firstIdx lines).toNat,
         ln = strL "No Tryscorer" ∨ ln = strL "No Goalscorer" →
         ln ∈ namesOf lines) ∧
    (∀ lines : List Line, List.Sublist (namesOf lines)
       (pyslice lines ((scorersIdx lines).toNat + 1) (firstIdx lines).toNat)) := by
  refine ⟨?_, ?_, ?_⟩
  · intro raw rows hok r hr
    rcases parseScorers_ok_inv raw rows hok with ⟨rows3, hp, hrows⟩
    subst hrows
    rcases List.mem_map.mp hr with ⟨r3, hr3, rfl⟩
    rcases parse_ok_inv raw rows3 hp with ⟨h1, h2, hshape⟩
    subst hshape
    have hmemtake := mem_buildRows_name _ _ _ _ hr3
    have hmem : r3.SelectionName ∈ namesOf (_norm raw) :=
      List.take_subset _ _ hmemtake
    unfold namesOf _collect_names at hmem
    have hkeep := (List.mem_filter.mp hmem).2
    exact nameKeep_not_noise _ hkeep
  · intro lines ln hmem hsent
    unfold namesOf _collect_names
    refine List.mem_filter.mpr ⟨hmem, ?_⟩
    rcases hsent with rfl | rfl <;> decide
  · intro lines
    unfold namesOf _collect_names
    exact List.filter_sublist _

/-- Witness for C5: a concrete "No Tryscorer" line in the name region is
kept as a candidate name. -/
theorem C5_witness :
    strL "No Tryscorer" ∈
      namesOf (_norm (strL "Goal Scorers\nNo Tryscorer\nFirst\nLast\nAnytime")) :=
  C5_noise_and_sentinel.2.1
    (_norm (strL "Goal Scorers\nNo Tryscorer\nFirst\nLast\nAnytime"))
    (strL "No Tryscorer") (by decide) (Or.inl rfl)

/-- C3 counterexample: on an input whose only absent marker is
"Anytime", the parser raises the fixed Missing-Headers message, and that
message mentions "First" even though "First" was found (at index 2) — so
the message does not name which markers were not found. -/
theorem C3_counterexample :
    parse_bet365_scorers (strL "Tryscorers\nSmith\nFirst\n2.5\nLast\n2.7") =
      .error missingHeadersMsg ∧
    anyIdx (_norm (strL "Tryscorers\nSmith\nFirst\n2.5\nLast\n2.7")) = -1 ∧
    firstIdx (_norm (strL "Tryscorers\nSmith\nFirst\n2.5\nLast\n2.7")) = 2 ∧
    containsSub missingHeadersMsg (strL "First") = true := by
  decide

/-- C3 (amended): whenever any of the four required markers is absent,
`parse_bet365_scorers` fails with the one fixed Missing-Headers message,
which enumerates all four required marker names (so every absent marker
is mentioned, but the message does not single out which were absent). -/
theorem C3_missing_headers (raw : Line)
    (h : scorersIdx (_norm raw) = -1 ∨ firstIdx (_norm raw) = -1 ∨
         lastIdx (_norm raw) = -1 ∨ anyIdx (_norm raw) = -1) :
    parse_bet365_scorers raw = .error missingHeadersMsg ∧
    containsSub missingHeadersMsg (strL "Tryscorers") = true ∧
    containsSub missingHeadersMsg (strL "Goalscorers") = true ∧
    containsSub missingHeadersMsg (strL "First") = true ∧
    containsSub missingHeadersMsg (strL "Last") = true ∧
    containsSub missingHeadersMsg (strL "Anytime") = true := by
  refine ⟨?_, by decide, by decide, by decide, by decide, by decide⟩
  exact parse_error_missing raw (minIdx_eq_neg_one (_norm raw) h)

/-- Witness for C3 (amended) at an input with no scorer header. -/
theorem C3_witness :
    parse_bet365_scorers (strL "First\nLast\nAnytime") = .error missingHeadersMsg ∧
    containsSub missingHeadersMsg (strL "Tryscorers") = true ∧
    containsSub missingHeadersMsg (strL "Goalscorers") = true ∧
    containsSub missingHeadersMsg (strL "First") = true ∧
    containsSub missingHeadersMsg (strL "Last") = true ∧
    containsSub missingHeadersMsg (strL "Anytime") = true :=
  C3_missing_headers (strL "First\nLast\nAnytime") (Or.inl (by decide))

/-- C1: whenever all four markers are found and the minimum of the four
parsed list lengths is at least one, `parseScorers` returns a table of
exactly `rowCount` rows whose row `i` takes the `i`-th name and the
`i`-th odds of each list, surplus entries of longer lists being
discarded by the truncation to `rowCount`. -/
theorem C1_positional_table (raw : Line)
    (hfound : minIdx (_norm raw) ≠ -1)
    (hm : 1 ≤ rowCount (_norm raw)) :
    ∃ rows, parseScorers raw = .ok rows ∧
      rows.length = rowCount (_norm raw) ∧
      ∀ i, i < rowCount (_norm raw) →
        rows[i]?.map Row5.SelectionName = (namesOf (_norm raw))[i]? ∧
        rows[i]?.map Row5.FirstOdds = (firstOf (_norm raw))[i]? ∧
        rows[i]?.map Row5.LastOdds = (firstOf (_norm raw))[i]? ∧
        rows[i]?.map Row5.AnyOdds = (anytOf (_norm raw))[i]? := by
  have h2 : rowCount (_norm raw) ≠ 0 := by omega
  refine ⟨List.map postRow (buildRows
      ((namesOf (_norm raw)).take (rowCount (_norm raw)))
      ((firstOf (_norm raw)).take (rowCount (_norm raw)))
      ((anytOf (_norm raw)).take (rowCount (_norm raw)))), ?_, ?_, ?_⟩
  · unfold parseScorers
    rw [parse_ok_shape raw hfound h2]
  · rw [List.length_map, buildRows_take_length]
  · intro i hi
    have hle := rowCount_le (_norm raw)
    rcases buildRows_getElem? ((namesOf (_norm raw)).take (rowCount (_norm raw)))
        ((firstOf (_norm raw)).take (rowCount (_norm raw)))
        ((anytOf (_norm raw)).take (rowCount (_norm raw))) i
        (by rw [List.length_take]; omega)
        (by rw [List.length_take]; omega)
        (by rw [List.length_take]; omega) with ⟨n, f, a, hn, hf, ha, hrow⟩
    rw [List.getElem?_take, if_pos hi] at hn hf ha
    rw [List.getElem?_map, hrow]
    refine ⟨?_, ?_, ?_, ?_⟩ <;> simp [postRow, hn, hf, ha]

/-- Witness for C1: a buffer with 3 names but only 2 First-odds values
yields a 2-row table, discarding the third name. -/
theorem C1_witness :
    ∃ rows,
      parseScorers (strL
        "Tryscorers\nA Smith\nB Jones\nC Brown\nFirst\n1.5\n2\nLast\n1.5\n2\n3\nAnytime\n1.1\n2.2\n3.3") =
        .ok rows ∧
      rows.length = rowCount (_norm (strL
        "Tryscorers\nA Smith\nB Jones\nC Brown\nFirst\n1.5\n2\nLast\n1.5\n2\n3\nAnytime\n1.1\n2.2\n3.3")) ∧
      ∀ i, i < rowCount (_norm (strL
          "Tryscorers\nA Smith\nB Jones\nC Brown\nFirst\n1.5\n2\nLast\n1.5\n2\n3\nAnytime\n1.1\n2.2\n3.3")) →
        rows[i]?.map Row5.SelectionName = (namesOf (_norm (strL
          "Tryscorers\nA Smith\nB Jones\nC Brown\nFirst\n1.5\n2\nLast\n1.5\n2\n3\nAnytime\n1.1\n2.2\n3.3")))[i]? ∧
        rows[i]?.map Row5.FirstOdds = (firstOf (_norm (strL
          "Tryscorers\nA Smith\nB Jones\nC Brown\nFirst\n1.5\n2\nLast\n1.5\n2\n3\nAnytime\n1.1\n2.2\n3.3")))[i]? ∧
        rows[i]?.map Row5.LastOdds = (firstOf (_norm (strL
          "Tryscorers\nA Smith\nB Jones\nC Brown\nFirst\n1.5\n2\nLast\n1.5\n2\n3\nAnytime\n1.1\n2.2\n3.3")))[i]? ∧
        rows[i]?.map Row5.AnyOdds = (anytOf (_norm (strL
          "Tryscorers\nA Smith\nB Jones\nC Brown\nFirst\n1.5\n2\nLast\n1.5\n2\n3\nAnytime\n1.1\n2.2\n3.3")))[i]? :=
  C1_positional_table (strL
    "Tryscorers\nA Smith\nB Jones\nC Brown\nFirst\n1.5\n2\nLast\n1.5\n2\n3\nAnytime\n1.1\n2.2\n3.3")
    (by decide) (by decide)

/-- C6: the odds collector keeps a line exactly when it is a bare
unsigned numeral (the code's regex coincides with the spec's pattern),
parses it as its numeric value in both the integer and the decimal
case, contributes nothing for rejected lines (it is a `filterMap`), and
in particular accepts "1.5" as 1.5 and "2" as 2 while rejecting "abc",
"-1.5" and "1,5". -/
theorem C6_odds_collector :
    (∀ l : Line, (parseOdds l).isSome = true ↔ specBareNumeral l) ∧
    (∀ d : Line, d ≠ [] → (∀ c ∈ d, c.isDigit = true) →
       parseOdds d = some (digitsToNat d : ℚ)) ∧
    (∀ d f : Line, d ≠ [] → f ≠ [] → (∀ c ∈ d, c.isDigit = true) →
       (∀ c ∈ f, c.isDigit = true) →
       parseOdds (d ++ '.' :: f) =
         some ((digitsToNat d : ℚ) + (digitsToNat f : ℚ) / (10 : ℚ) ^ f.length)) ∧
    (∀ ls : List Line, collectOddsList ls = ls.filterMap parseOdds) ∧
    parseOdds (strL "1.5") = some (1.5 : ℚ) ∧
    parseOdds (strL "2") = some (2 : ℚ) ∧
    parseOdds (strL "abc") = none ∧
    parseOdds (strL "-1.5") = none ∧
    parseOdds (strL "1,5") = none := by
  refine ⟨?_, parseOdds_int, parseOdds_dec, collectOddsList_eq_filterMap,
    ?_, by decide, by decide, by decide, by decide⟩
  · intro l
    unfold parseOdds
    rw [← numMatch_isSome_iff l]
    cases numMatch l <;> simp
  · rw [show (1.5 : ℚ) = mkRat 15 10 from by
      norm_num [Rat.mkRat_eq_divInt, Rat.divInt_eq_div]]
    decide

/-- Witness for C6 at a concrete all-digit line. -/
theorem C6_witness :
    parseOdds (strL "25") = some (digitsToNat (strL "25") : ℚ) :=
  C6_odds_collector.2.1 (strL "25") (by decide) (by decide)

theorem mem_of_getElemOpt {α : Type} (l : List α) (i : Nat) (a : α)
    (h : l[i]? = some a) : a ∈ l := by
  rcases List.getElem?_eq_some.mp h with ⟨hlt, rfl⟩
  exact List.getElem_mem hlt

theorem take_all_get (lines : List Line) (p : Line → Bool) (i j : Nat) (hj : j < i)
    (hall : (lines.take i).all p = true) (x : Line) (hx : lines[j]? = some x) :
    p x = true := by
  have hx2 : (lines.take i)[j]? = some x := by
    rw [List.getElem?_take, if_pos hj]
    exact hx
  exact List.all_eq_true.mp hall x (mem_of_getElemOpt _ _ _ hx2)

theorem idx_eq_coe_iff (lines : List Line) (token : Line) (i : Nat) :
    _idx lines token = (i : Int) ↔
      ((lines.take i).all (fun ln => !matchTok ln token) = true ∧
       ∃ ln, lines[i]? = some ln ∧ matchTok ln token = true) := by
  unfold _idx
  cases h : firstMatch (fun ln => matchTok ln token) lines with
  | none =>
      dsimp only
      constructor
      · intro hc
        exfalso
        omega
      · rintro ⟨hall, ln, hln, hmt⟩
        exfalso
        have hfalse := (firstMatch_eq_none_iff _ lines).mp h ln (mem_of_getElemOpt _ _ _ hln)
        rw [hfalse] at hmt
        cases hmt
  | some j =>
      dsimp only
      constructor
      · intro hc
        have hji : j = i := by omega
        subst hji
        exact (firstMatch_eq_some_iff _ lines j).mp h
      · rintro ⟨hall, ln, hln, hmt⟩
        rcases (firstMatch_eq_some_iff _ lines j).mp h with ⟨hallj, lnj, hlnj, hmj⟩
        have hij : j = i := by
          by_contra hne
          rcases Nat.lt_or_ge j i with hlt | hge
          · have hx := take_all_get lines _ i j hlt hall lnj hlnj
            simp [hmj] at hx
          · have hlt2 : i < j := by omega
            have hx := take_all_get lines _ j i hlt2 hallj ln hln
            simp [hmt] at hx
        subst hij
        rfl

theorem idx_eq_neg_one_iff (lines : List Line) (token : Line) :
    _idx lines token = -1 ↔ ∀ ln ∈ lines, matchTok ln token = false := by
  unfold _idx
  cases h : firstMatch (fun ln => matchTok ln token) lines with
  | none =>
      dsimp only
      constructor
      · intro hc
        exact (firstMatch_eq_none_iff _ lines).mp h
      · intro hall
        rfl
  | some j =>
      dsimp only
      constructor
      · intro hc
        exfalso
        omega
      · intro hall
        exfalso
        rcases (firstMatch_eq_some_iff _ lines j).mp h with ⟨hallj, ln, hln, hm⟩
        have hfalse := hall ln (mem_of_getElemOpt _ _ _ hln)
        rw [hfalse] at hm
        cases hm

theorem find_any_spec (lines : List Line) :
    ∀ (toks : List Line) (i : Int) (tok : Line),
      _find_any_index lines toks = (i, tok) → i ≠ -1 →
      ∃ k : Nat, toks[k]? = some tok ∧ _idx lines tok = i ∧
        ∀ j : Nat, j < k → ∀ t, toks[j]? = some t → _idx lines t = -1 := by
  intro toks
  induction toks with
  | nil =>
      intro i tok h hne
      simp only [_find_any_index, Prod.mk.injEq] at h
      exact absurd h.1.symm hne
  | cons tk rest ih =>
      intro i tok h hne
      simp only [_find_any_index] at h
      by_cases hidx : _idx lines tk != -1
      · rw [if_pos hidx] at h
        injection h with h1 h2
        subst h1
        subst h2
        exact ⟨0, by simp, rfl, by intro j hj; omega⟩
      · rw [if_neg hidx] at h
        rcases ih i tok h hne with ⟨k, hk, hki, hbefore⟩
        refine ⟨k + 1, by simpa using hk, hki, ?_⟩
        intro j hj t ht
        cases j with
        | zero =>
            have htk : t = tk := by simpa using ht.symm
            subst htk
            simpa using hidx
        | succ j2 =>
            exact hbefore j2 (by omega) t (by simpa using ht)

/-- C7 counterexample: with the lines "Goalscorers", "Tryscorers" the
earliest line matching a scorer-header variant is line 0, but the
locator returns index 1, because candidate tokens are tried in priority
order before lines. -/
theorem C7_counterexample :
    (_find_any_index [strL "Goalscorers", strL "Tryscorers"] _SCORER_HEADERS).1 = 1 ∧
    strL "Goalscorers" ∈ _SCORER_HEADERS ∧
    matchTok (strL "Goalscorers") (strL "Goalscorers") = true ∧
    _idx [strL "Goalscorers", strL "Tryscorers"] (strL "Goalscorers") = 0 := by
  decide

/-- C7 (amended): for a single token, `_idx` returns the index of the
first line whose entire trimmed lower-cased content equals the token
(never a substring match), and the sentinel `-1` exactly when no line
matches; for the polymorphic scorer header, `_find_any_index` tries the
candidate variants in priority order and returns the first-line index
of the earliest variant in that order that occurs anywhere — not
necessarily the index of the earliest line matching any variant. -/
theorem C7_header_locator :
    (∀ (lines : List Line) (token : Line) (i : Nat),
       _idx lines token = (i : Int) ↔
         ((lines.take i).all (fun ln => !matchTok ln token) = true ∧
          ∃ ln, lines[i]? = some ln ∧ matchTok ln token = true)) ∧
    (∀ (lines : List Line) (token : Line),
       _idx lines token = -1 ↔ ∀ ln ∈ lines, matchTok ln token = false) ∧
    (∀ (lines toks : List Line) (i : Int) (tok : Line),
       _find_any_index lines toks = (i, tok) → i ≠ -1 →
       ∃ k : Nat, toks[k]? = some tok ∧ _idx lines tok = i ∧
         ∀ j : Nat, j < k → ∀ t, toks[j]? = some t → _idx lines t = -1) :=
  ⟨idx_eq_coe_iff, idx_eq_neg_one_iff, fun lines => find_any_spec lines⟩

/-- Witness for C7 (amended) at a concrete two-line input. -/
theorem C7_witness :
    ∃ k : Nat, _SCORER_HEADERS[k]? = some (strL "Tryscorers") ∧
      _idx [strL "xx", strL "Tryscorers"] (strL "Tryscorers") = 1 ∧
      ∀ j : Nat, j < k → ∀ t, _SCORER_HEADERS[j]? = some t →
        _idx [strL "xx", strL "Tryscorers"] t = -1 :=
  C7_header_locator.2.2 [strL "xx", strL "Tryscorers"] _SCORER_HEADERS 1
    (strL "Tryscorers") (by decide) (by decide)

end Bet365
